import Mathlib

/-!
# Verification of the dashboard aggregation layer

A shallow embedding of the aggregation and fetch-handling logic of the
CasePeer dashboard (the React components `StatsOverview.jsx`,
`N8nExecutions.jsx` and `VapiAnalytics.jsx`), together with theorems
settling the spec's claims about it.

Modelling conventions:
* JavaScript numbers are modelled as rationals (`ℚ`); the claims under
  scrutiny only involve exact sums, products and guarded divisions.
* A possibly-absent JSON field is an `Option`; the JavaScript idiom
  `x || 0` on a numeric field is `Option.getD 0` (an actual `0` is falsy
  in JS and is replaced by `0`, so the two agree), and `x ? a : b` on a
  string field tests presence together with non-emptiness, since the
  empty string is falsy.
* A JavaScript plain object used as a dictionary is an insertion-ordered
  association list; `Object.entries` follows the ECMAScript
  `[[OwnPropertyKeys]]` order: keys that are array indices (canonical
  decimal strings below 2^32 - 1) first, in ascending numeric order, then
  the remaining string keys in insertion (first-creation) order.
-/

namespace CasePeer

/-- JavaScript truthiness of a possibly-absent string: `undefined`, `null`
and the empty string are falsy. -/
def jsTruthy : Option String → Bool
  | some s => !(s == "")
  | none => false

/-- A negotiation record, child of a case (`StatsOverview.jsx` reads the
fields `to`, `offered_bill`, `actual_bill` and `result`). -/
structure Negotiation where
  «to» : Option String
  offered_bill : Option ℚ
  actual_bill : Option ℚ
  result : Option String
  deriving Repr, DecidableEq

/-- A case record as consumed by `StatsOverview.jsx`'s `fetchData`. -/
structure Case where
  id : Option String
  case_name : Option String
  status : Option String
  revenue : Option ℚ
  savings : Option ℚ
  fees_taken : Option ℚ
  emails_received : Option ℚ
  emails_sent : Option ℚ
  negotiations : Option (List Negotiation)
  deriving Repr, DecidableEq

/-! ## KPI computations (`StatsOverview.jsx` lines 43-50) -/

/-- JS: `const totalCases = cases.length` -/
def totalCases (cases : List Case) : Nat := cases.length

/-- JS: `const activeCases = cases.filter(c => c.status === "Active").length` -/
def activeCases (cases : List Case) : Nat :=
  (cases.filter (fun c => c.status = some "Active")).length

/-- JS: `const totalRevenue = cases.reduce((acc, c) => acc + (c.revenue || 0), 0)` -/
def totalRevenue (cases : List Case) : ℚ :=
  cases.foldl (fun acc c => acc + c.revenue.getD 0) 0

/-- JS: `const totalSavings = cases.reduce((acc, c) => acc + (c.savings || 0), 0)` -/
def totalSavings (cases : List Case) : ℚ :=
  cases.foldl (fun acc c => acc + c.savings.getD 0) 0

/-- JS: `const totalEmails = cases.reduce((acc, c) => acc + (c.emails_received || 0) + (c.emails_sent || 0), 0)` -/
def totalEmails (cases : List Case) : ℚ :=
  cases.foldl (fun acc c => acc + c.emails_received.getD 0 + c.emails_sent.getD 0) 0

/-- JS: `const winRate = totalCases > 0 ? (activeCases / totalCases) * 100 : 0` -/
def winRate (cases : List Case) : ℚ :=
  if 0 < totalCases cases then ((activeCases cases : ℚ) / (totalCases cases : ℚ)) * 100 else 0

/-- JS: `const avgCaseValue = totalCases > 0 ? totalRevenue / totalCases : 0` -/
def avgCaseValue (cases : List Case) : ℚ :=
  if 0 < totalCases cases then totalRevenue cases / (totalCases cases : ℚ) else 0

/-- JS: `const latestCaseId = totalCases > 0 ? cases[0].id : null` -/
def latestCaseId (cases : List Case) : Option String :=
  match cases with
  | [] => none
  | c :: _ => c.id

/-! ## Negotiation flattening and the negotiation-performance chart
(`StatsOverview.jsx` lines 68-82) -/

/-- The flattening loop:
`cases.forEach(c => { if (c.negotiations) negotiations = [...negotiations, ...c.negotiations] })`. -/
def flattenNegotiations (cases : List Case) : List Negotiation :=
  cases.foldl
    (fun acc c =>
      match c.negotiations with
      | some ns => acc ++ ns
      | none => acc)
    []

/-- One point of the negotiation-performance chart: the body of
`negotiations.map((n, i) => ...)`. -/
structure PerfPoint where
  name : String
  offered : ℚ
  actual : ℚ
  deriving Repr, DecidableEq

/-- JS: `const name = n.to ? n.to.substring(0, 10) : ("Neg " + i)` together
with the `offered_bill || 0` and `actual_bill || 0` defaults. -/
def negPerfPoint (i : Nat) (n : Negotiation) : PerfPoint :=
  { name :=
      match n.«to» with
      | some s => if s = "" then "Neg " ++ toString i else s.take 10
      | none => "Neg " ++ toString i
    offered := n.offered_bill.getD 0
    actual := n.actual_bill.getD 0 }

/-- Mapping with the element's position, as JavaScript's `Array.map`
passes it to the callback. -/
def mapWithIndex {α β : Type} (f : Nat → α → β) : Nat → List α → List β
  | _, [] => []
  | i, a :: as => f i a :: mapWithIndex f (i + 1) as

/-- JS: `negotiations.map((n, i) => ...).slice(0, 20)` -/
def negotiationPerf (cases : List Case) : List PerfPoint :=
  (mapWithIndex negPerfPoint 0 (flattenNegotiations cases)).take 20

/-! ## The executions summary (`N8nExecutions.jsx`) -/

/-- The n8n executions summary object, with the fields the component
reads (`success`, `error`, `running`, `waiting`, `total_fetched`,
`workflow_breakdown`; the breakdown object is kept as an
insertion-ordered association list). -/
structure ExecSummary where
  success : ℚ
  error : ℚ
  running : ℚ
  waiting : ℚ
  total_fetched : ℚ
  workflow_breakdown : Option (List (String × ℚ))
  deriving Repr, DecidableEq

/-- JS: `const successRate = data.total_fetched > 0 ? ((data.success / data.total_fetched) * 100).toFixed(1) : 0`
(the numeric value; `toFixed(1)` is presentation-time formatting). -/
def successRate (d : ExecSummary) : ℚ :=
  if 0 < d.total_fetched then (d.success / d.total_fetched) * 100 else 0

/-! ## Fetch results and per-component error classification

A browser `fetch` resolves with a response object for every HTTP status
(`.ok` is `200 ≤ status ≤ 299`) and rejects only on a transport-level
(network) failure. -/

/-- The outcome of one `fetch` call: a settled HTTP response carrying a
parsed body, or a rejected promise (network failure). -/
inductive FetchResult (α : Type) where
  | response (status : Nat) (body : α)
  | failure
  deriving Repr, DecidableEq

/-- HTTP `res.ok`: the status is in the 2xx range. -/
def httpOk (status : Nat) : Bool := decide (200 ≤ status) && decide (status ≤ 299)

/-- The parsed body of the n8n executions endpoint as `N8nExecutions.jsx`
inspects it before using the summary: only its optional `error` field
drives the `if (d.error) setError(d.error)` branch. -/
structure N8nBody where
  error : Option String
  deriving Repr, DecidableEq

/-- The error message `N8nExecutions.jsx`'s `fetchData` stores via
`setError` (`none` when the component keeps the data instead):
2xx with truthy payload `error` field gives that message; status 400
gives the API-key-not-configured prompt; any other non-2xx status gives
the generic fetch message; a rejected fetch gives the connection
message. -/
def n8nErrorMsg (res : FetchResult N8nBody) : Option String :=
  match res with
  | .response s body =>
      if httpOk s then (if jsTruthy body.error then body.error else none)
      else if s = 400 then some "n8n API Key not configured. Go to Settings to add it."
      else some "Failed to fetch n8n data"
  | .failure => some "Failed to connect to n8n API"

/-- The parsed body of the VAPI calls endpoint as `VapiAnalytics.jsx`
inspects it: only its optional `error` field drives the
`if (data.error) setError(data.error)` branch. -/
structure VapiBody where
  error : Option String
  deriving Repr, DecidableEq

/-- The error message `VapiAnalytics.jsx`'s `fetchData` stores via
`setError` for the calls fetch (`none` when the data is kept). -/
def vapiErrorMsg (res : FetchResult VapiBody) : Option String :=
  match res with
  | .response s body =>
      if httpOk s then (if jsTruthy body.error then body.error else none)
      else if s = 400 then some "VAPI API Key not configured. Go to Settings to add it."
      else some "Failed to fetch VAPI data"
  | .failure => some "Failed to connect to VAPI API"

/-! ## JavaScript objects as dictionaries: grouping and `Object.entries` -/

/-- The key of the status-distribution grouping: `acc[c.status]` coerces
an `undefined` property key to the string `"undefined"`. -/
def statusKey (c : Case) : String := c.status.getD "undefined"

/-- One step of `cases.reduce((acc, c) => { acc[k] = (acc[k] || 0) + 1; ... }, {})`
on the insertion-ordered association-list model of a JS object: an
existing key is incremented in place, a new key is appended. -/
def bump (l : List (String × Nat)) (k : String) : List (String × Nat) :=
  match l with
  | [] => [(k, 1)]
  | (k', v) :: rest => if k' = k then (k', v + 1) :: rest else (k', v) :: bump rest k

/-- The `statusCounts` object of `StatsOverview.jsx` lines 61-64, as an
insertion-ordered association list. -/
def statusCounts (cases : List Case) : List (String × Nat) :=
  cases.foldl (fun acc c => bump acc (statusKey c)) []

/-- Whether a character is a decimal digit. -/
def isDigitChar (c : Char) : Bool := decide ('0' ≤ c) && decide (c ≤ '9')

/-- The numeric value of a string of decimal digits. -/
def natOfDigits (cs : List Char) : Nat :=
  cs.foldl (fun n c => n * 10 + (c.toNat - 48)) 0

/-- Whether a string is an ECMAScript array index: the canonical decimal
form (digits only, no leading zero except for `"0"` itself) of an
integer `n` with `0 ≤ n < 2^32 - 1`. Such property keys come first, in
ascending numeric order, in a JS object's own-property order. -/
def isArrayIndex (s : String) : Bool :=
  match s.data with
  | [] => false
  | c :: cs =>
      (c :: cs).all isDigitChar && (!(c == '0') || cs.isEmpty)
        && decide (natOfDigits (c :: cs) < 2 ^ 32 - 1)

/-- The numeric value of an array-index key. -/
def keyNum (s : String) : Nat := natOfDigits s.data

/-- Insertion into a list sorted ascending by `keyNum` of the key. -/
def insertByKeyNum {α : Type} (x : String × α) : List (String × α) → List (String × α)
  | [] => [x]
  | y :: ys => if keyNum x.1 ≤ keyNum y.1 then x :: y :: ys else y :: insertByKeyNum x ys

/-- Sorting ascending by `keyNum` of the key. -/
def sortByKeyNum {α : Type} (l : List (String × α)) : List (String × α) :=
  l.foldr insertByKeyNum []

/-- The `Object.entries` view of a JS object modelled as an
insertion-ordered association list: array-index keys first in ascending
numeric order, then the remaining string keys in insertion order
(ECMAScript `[[OwnPropertyKeys]]`). -/
def jsEntries {α : Type} (l : List (String × α)) : List (String × α) :=
  sortByKeyNum (l.filter (fun p => isArrayIndex p.1))
    ++ l.filter (fun p => !isArrayIndex p.1)

/-- JS: `const statusData = Object.entries(statusCounts).map(([name, value]) => ({name, value}))`. -/
def statusData (cases : List Case) : List (String × Nat) :=
  jsEntries (statusCounts cases)

/-- The key of the negotiation-outcome grouping:
`const res = n.result || "Unknown"`. -/
def negResultKey (n : Negotiation) : String :=
  match n.result with
  | some s => if s = "" then "Unknown" else s
  | none => "Unknown"

/-- The negotiation-outcome series (the `negResults` reduce plus
`Object.entries`). -/
def negotiationResults (cases : List Case) : List (String × Nat) :=
  jsEntries ((flattenNegotiations cases).foldl (fun acc n => bump acc (negResultKey n)) [])

/-- The reference grouping the spec describes: the distinct keys in order
of first occurrence, each paired with its total multiplicity. -/
def firstSeenGroups : List String → List (String × Nat)
  | [] => []
  | k :: ks => (k, 1 + ks.count k) :: (firstSeenGroups ks).filter (fun p => decide (p.1 ≠ k))

/-! ## The workflow-breakdown chart (`N8nExecutions.jsx` lines 57-62) -/

/-- One entry of the workflow-breakdown bar chart. -/
structure WEntry where
  name : String
  value : ℚ
  fullName : String
  deriving Repr, DecidableEq

/-- JS: `name.length > 20 ? name.substring(0, 20) + "..." : name` -/
def truncName (s : String) : String :=
  if 20 < s.length then s.take 20 ++ "..." else s

/-- The map body `([name, value]) => ({name: ..., value, fullName: name})`. -/
def mkWEntry (p : String × ℚ) : WEntry :=
  { name := truncName p.1, value := p.2, fullName := p.1 }

/-- Stable insertion for a descending sort by `value`: the incoming
(earlier) element goes before every element whose value does not exceed
it, so equal values keep their original relative order. -/
def insertDesc (x : WEntry) : List WEntry → List WEntry
  | [] => [x]
  | y :: ys => if y.value ≤ x.value then x :: y :: ys else y :: insertDesc x ys

/-- The stable descending sort by `value`. ECMAScript
`Array.prototype.sort` is stable, so with the comparator
`(a, b) => b.value - a.value` its result is the unique permutation that
is descending in `value` and keeps equal values in input order — which
this insertion sort computes. -/
def sortDesc (l : List WEntry) : List WEntry := l.foldr insertDesc []

/-- JS: `data.workflow_breakdown ? Object.entries(...).map(...).sort((a, b) => b.value - a.value) : []`. -/
def workflowData (d : ExecSummary) : List WEntry :=
  match d.workflow_breakdown with
  | none => []
  | some wb => sortDesc ((jsEntries wb).map mkWEntry)

/-! ## The dashboard component state and one fetch cycle
(`StatsOverview.jsx` lines 11-110)

The component's `fetchData` runs `Promise.all` over the cases fetch and
the n8n fetch. `Promise.all` rejects as soon as either promise rejects,
so a network failure on either source sends control to the `catch` block
(which only logs) and neither response is processed; HTTP error statuses
do not reject, so they are handled per-source by the `if (res.ok)`
guards. -/

/-- One execution record of the n8n list (`StatsOverview` stores the
array without inspecting elements; `N8nHealth` reads `id` and
`status`). -/
structure Execution where
  id : Option String
  status : Option String
  deriving Repr, DecidableEq

/-- The `stats` state of `StatsOverview` (its `useState` initial value is
`initState.stats` below). -/
structure Stats where
  totalCases : Nat
  activeCases : Nat
  totalRevenue : ℚ
  totalSavings : ℚ
  totalEmails : ℚ
  winRate : ℚ
  avgCaseValue : ℚ
  latestCaseId : Option String
  deriving Repr, DecidableEq

/-- One point of the revenue-per-case chart (the `revenueData` map body). -/
structure RevenuePoint where
  name : Option String
  revenue : ℚ
  savings : ℚ
  fees : ℚ
  deriving Repr, DecidableEq

/-- JS: `const revenueData = cases.map(c => ({name: ..., revenue: ..., savings: ..., fees: ...}))`. -/
def revenueData (cases : List Case) : List RevenuePoint :=
  cases.map fun c =>
    { name := if jsTruthy c.case_name then some ((c.case_name.getD "").take 10 ++ "...") else c.id
      revenue := c.revenue.getD 0
      savings := c.savings.getD 0
      fees := c.fees_taken.getD 0 }

/-- The `charts` state of `StatsOverview`. -/
structure Charts where
  revenue : List RevenuePoint
  status : List (String × Nat)
  negotiationPerf : List PerfPoint
  negotiationResults : List (String × Nat)
  deriving Repr, DecidableEq

/-- The observable state of the `StatsOverview` component: everything its
render reads (`stats`, `charts`, `n8nExecutions`, `loading`). -/
structure DashState where
  stats : Stats
  charts : Charts
  n8nExecutions : List Execution
  loading : Bool
  deriving Repr, DecidableEq

/-- The component's `useState` initial values. -/
def initState : DashState :=
  { stats :=
      { totalCases := 0, activeCases := 0, totalRevenue := 0, totalSavings := 0
        totalEmails := 0, winRate := 0, avgCaseValue := 0, latestCaseId := none }
    charts :=
      { revenue := [], status := [], negotiationPerf := [], negotiationResults := [] }
    n8nExecutions := []
    loading := true }

/-- The `setStats` argument computed from a successful cases response. -/
def computeStats (cases : List Case) : Stats :=
  { totalCases := totalCases cases
    activeCases := activeCases cases
    totalRevenue := totalRevenue cases
    totalSavings := totalSavings cases
    totalEmails := totalEmails cases
    winRate := winRate cases
    avgCaseValue := avgCaseValue cases
    latestCaseId := latestCaseId cases }

/-- The `setCharts` argument computed from a successful cases response. -/
def computeCharts (cases : List Case) : Charts :=
  { revenue := revenueData cases
    status := statusData cases
    negotiationPerf := negotiationPerf cases
    negotiationResults := negotiationResults cases }

/-- The `if (casesRes.ok) { ... setStats(...); setCharts(...) }` block. -/
def processCases (cases : List Case) (st : DashState) : DashState :=
  { st with stats := computeStats cases, charts := computeCharts cases }

/-- The `if (n8nRes.ok) { ... if (Array.isArray(n8nData)) setN8nExecutions(n8nData) }`
block; a non-array body (`none`) is ignored. -/
def processN8n (body : Option (List Execution)) (st : DashState) : DashState :=
  match body with
  | some arr => { st with n8nExecutions := arr }
  | none => st

/-- One `fetchData` cycle of `StatsOverview`: if either fetch rejects,
`Promise.all` rejects and the `catch` block leaves all state untouched;
otherwise each response is processed under its own `res.ok` guard. The
`finally` block always clears `loading`. -/
def fetchDataStep (casesRes : FetchResult (List Case))
    (n8nRes : FetchResult (Option (List Execution))) (st : DashState) : DashState :=
  match casesRes, n8nRes with
  | .response s1 b1, .response s2 b2 =>
      let st1 := if httpOk s1 then processCases b1 st else st
      let st2 := if httpOk s2 then processN8n b2 st1 else st1
      { st2 with loading := false }
  | _, _ => { st with loading := false }

/-- A fetch outcome that counts as a failed source this cycle: a rejected
fetch or a non-2xx response. -/
def failsCycle {α : Type} : FetchResult α → Bool
  | .response s _ => !httpOk s
  | .failure => true

/-! ## Concrete records used by witnesses and counterexamples -/

/-- A sample fresh execution record used in concrete cycles. -/
def exExec : Execution := { id := some "1", status := some "success" }

/-- A case with the given status and every other field absent. -/
def mkCase (status : Option String) : Case :=
  { id := none, case_name := none, status := status, revenue := none, savings := none
    fees_taken := none, emails_received := none, emails_sent := none, negotiations := none }

/-- Cases whose second status is the array-index-like string `"2"`. -/
def exStatusCases : List Case := [mkCase (some "Active"), mkCase (some "2")]

/-- Cases with ordinary (non-index) statuses. -/
def exStatusCasesOk : List Case :=
  [mkCase (some "Active"), mkCase (some "Closed"), mkCase (some "Active")]

/-- One case with absent status and one whose status is the literal
string `"undefined"`. -/
def exUndefCases : List Case := [mkCase none, mkCase (some "undefined")]

/-- Cases with two absent statuses and one ordinary one. -/
def exUndefCasesOk : List Case := [mkCase none, mkCase (some "Active"), mkCase none]

/-- An executions summary whose breakdown has an array-index-like
workflow name tied in count with an ordinary one. -/
def exSummary : ExecSummary := ⟨0, 0, 0, 0, 0, some [("B", 1), ("2", 1)]⟩

/-- An executions summary with ordinary workflow names. -/
def exSummaryOk : ExecSummary :=
  ⟨0, 0, 0, 0, 0, some [("wfA", 2), ("wfB", 5), ("wfC", 2)]⟩

/-! ## Helper lemmas -/

lemma foldl_add_getD (f : Case → Option ℚ) (l : List Case) :
    ∀ a : ℚ, l.foldl (fun acc c => acc + (f c).getD 0) a
      = a + (l.map (fun c => (f c).getD 0)).sum := by
  induction l with
  | nil => intro a; simp
  | cons c cs ih =>
      intro a
      simp only [List.foldl_cons, List.map_cons, List.sum_cons, ih, add_assoc]

lemma totalRevenue_eq_sum (cases : List Case) :
    totalRevenue cases = (cases.map (fun c => c.revenue.getD 0)).sum := by
  simpa using foldl_add_getD (fun c => c.revenue) cases 0

lemma flattenNegotiations_eq_join (cases : List Case) :
    flattenNegotiations cases
      = (cases.map (fun c => c.negotiations.getD [])).flatten := by
  have h : ∀ (l : List Case) (acc : List Negotiation),
      l.foldl
        (fun acc c =>
          match c.negotiations with
          | some ns => acc ++ ns
          | none => acc)
        acc = acc ++ (l.map (fun c => c.negotiations.getD [])).flatten := by
    intro l
    induction l with
    | nil => intro acc; simp
    | cons c cs ih =>
        intro acc
        cases hn : c.negotiations with
        | none => simp [List.foldl_cons, hn, ih]
        | some ns => simp [List.foldl_cons, hn, ih, List.append_assoc]
  simpa using h cases []

lemma take_mapWithIndex {α β : Type} (f : Nat → α → β) (n : Nat) :
    ∀ (i : Nat) (l : List α),
      (mapWithIndex f i l).take n = mapWithIndex f i (l.take n) := by
  induction n with
  | zero => intro i l; simp [mapWithIndex]
  | succ m ih =>
      intro i l
      cases l with
      | nil => simp [mapWithIndex]
      | cons a as => simp [mapWithIndex, List.take_succ_cons, ih]

/-! ## Helper lemmas about grouping and `Object.entries` -/

lemma count_filter_of_pos {α : Type} [DecidableEq α] (p : α → Bool) (a : α)
    (h : p a = true) : ∀ l : List α, (l.filter p).count a = l.count a := by
  intro l
  induction l with
  | nil => simp
  | cons b bs ih =>
      by_cases hba : b = a
      · subst hba
        simp [List.filter_cons, h, List.count_cons, ih]
      · cases hpb : p b with
        | true => simp [List.filter_cons, hpb, List.count_cons, ih, hba, Ne.symm hba]
        | false => simp [List.filter_cons, hpb, List.count_cons, ih, hba, Ne.symm hba]

lemma filter_firstSeenGroups (k : String) :
    ∀ l : List String,
      (firstSeenGroups l).filter (fun p => decide (p.1 ≠ k))
        = firstSeenGroups (l.filter (fun a => decide (a ≠ k))) := by
  intro l
  induction l with
  | nil => simp [firstSeenGroups]
  | cons a as ih =>
      by_cases hak : a = k
      · subst hak
        simp only [firstSeenGroups, List.filter_cons, ne_eq, not_true_eq_false,
          decide_False, Bool.false_eq_true, if_false, List.filter_filter,
          Bool.and_self]
        exact ih
      · have h1 : decide (a ≠ k) = true := by simp [hak]
        have hcount : (as.filter (fun x => decide (x ≠ k))).count a = as.count a :=
          count_filter_of_pos _ a (by simp [hak]) as
        have h2 : (fun (p : String × Nat) => decide (p.1 ≠ k) && decide (p.1 ≠ a))
            = fun p => decide (p.1 ≠ a) && decide (p.1 ≠ k) := by
          funext p; exact Bool.and_comm _ _
        simp only [firstSeenGroups, List.filter_cons, h1, if_true, hcount]
        congr 1
        rw [List.filter_filter, h2, ← List.filter_filter, ih]

lemma bump_map_fst_of_mem (k : String) : ∀ acc : List (String × Nat),
    k ∈ acc.map Prod.fst → (bump acc k).map Prod.fst = acc.map Prod.fst := by
  intro acc
  induction acc with
  | nil => intro h; simp at h
  | cons p rest ih =>
      intro h
      obtain ⟨k', v⟩ := p
      by_cases hk : k' = k
      · simp [bump, hk]
      · have : k ∈ rest.map Prod.fst := by
          simp only [List.map_cons, List.mem_cons] at h
          rcases h with h | h
          · exact absurd h.symm hk
          · exact h
        simp [bump, hk, ih this]

lemma bump_of_not_mem (k : String) : ∀ acc : List (String × Nat),
    k ∉ acc.map Prod.fst → bump acc k = acc ++ [(k, 1)] := by
  intro acc
  induction acc with
  | nil => intro _; rfl
  | cons p rest ih =>
      intro h
      obtain ⟨k', v⟩ := p
      simp only [List.map_cons, List.mem_cons, not_or] at h
      have hk : k' ≠ k := fun hh => h.1 hh.symm
      simp [bump, hk, ih h.2]

lemma bump_count_shift (k : String) (ks : List String) : ∀ acc : List (String × Nat),
    (acc.map Prod.fst).Nodup → k ∈ acc.map Prod.fst →
    (bump acc k).map (fun p => (p.1, p.2 + ks.count p.1))
      = acc.map (fun p => (p.1, p.2 + (k :: ks).count p.1)) := by
  intro acc
  induction acc with
  | nil => intro _ h; simp at h
  | cons p rest ih =>
      intro hnd hmem
      obtain ⟨k', v⟩ := p
      simp only [List.map_cons, List.nodup_cons] at hnd
      by_cases hk : k' = k
      · subst hk
        have hrest : ∀ q ∈ rest, q.1 ≠ k' := by
          intro q hq hq1
          exact hnd.1 (hq1 ▸ List.mem_map_of_mem Prod.fst hq)
        have hb : bump ((k', v) :: rest) k' = (k', v + 1) :: rest := by simp [bump]
        rw [hb, List.map_cons, List.map_cons]
        congr 1
        · simp only [List.count_cons, Prod.mk.injEq, true_and]
          simp
          omega
        · apply List.map_congr_left
          intro q hq
          have hq1 : q.1 ≠ k' := hrest q hq
          simp [List.count_cons, hq1]
      · have hmem' : k ∈ rest.map Prod.fst := by
          simp only [List.map_cons, List.mem_cons] at hmem
          rcases hmem with h | h
          · exact absurd h.symm hk
          · exact h
        have hb : bump ((k', v) :: rest) k = (k', v) :: bump rest k := by simp [bump, hk]
        rw [hb, List.map_cons, List.map_cons]
        congr 1
        · simp [List.count_cons, hk]
        · exact ih hnd.2 hmem'

lemma foldl_bump_eq : ∀ (ks : List String) (acc : List (String × Nat)),
    (acc.map Prod.fst).Nodup →
    ks.foldl bump acc
      = acc.map (fun p => (p.1, p.2 + ks.count p.1))
        ++ firstSeenGroups (ks.filter (fun a => decide (a ∉ acc.map Prod.fst))) := by
  intro ks
  induction ks with
  | nil =>
      intro acc _
      simp [firstSeenGroups]
  | cons k ks ih =>
      intro acc hnd
      rw [List.foldl_cons]
      by_cases hk : k ∈ acc.map Prod.fst
      · have hkeys := bump_map_fst_of_mem k acc hk
        have hnd' : ((bump acc k).map Prod.fst).Nodup := hkeys ▸ hnd
        rw [ih (bump acc k) hnd', bump_count_shift k ks acc hnd hk, hkeys]
        have hfc : (k :: ks).filter (fun a => decide (a ∉ acc.map Prod.fst))
            = ks.filter (fun a => decide (a ∉ acc.map Prod.fst)) := by
          simp [List.filter_cons, hk]
        rw [hfc]
      · have hb := bump_of_not_mem k acc hk
        have hkeys : (bump acc k).map Prod.fst = acc.map Prod.fst ++ [k] := by
          rw [hb]; simp
        have hnd' : ((bump acc k).map Prod.fst).Nodup := by
          rw [hkeys, List.nodup_append]
          exact ⟨hnd, List.nodup_singleton k, by simpa using hk⟩
        rw [ih (bump acc k) hnd', hb]
        have hmapfst : ∀ q ∈ acc, q.1 ≠ k := by
          intro q hq hq1
          exact hk (hq1 ▸ List.mem_map_of_mem Prod.fst hq)
        have hmap : (acc ++ [(k, 1)]).map
              (fun p : String × Nat => (p.1, p.2 + ks.count p.1))
            = acc.map (fun p : String × Nat => (p.1, p.2 + (k :: ks).count p.1))
              ++ [(k, 1 + ks.count k)] := by
          rw [List.map_append]
          congr 1
          apply List.map_congr_left
          intro q hq
          simp [List.count_cons, hmapfst q hq]
        rw [hmap]
        have hpred : ∀ a : String,
            (decide (a ∉ (acc ++ [(k, 1)]).map Prod.fst))
              = (decide (a ≠ k) && decide (a ∉ acc.map Prod.fst)) := by
          intro a
          simp only [List.map_append, List.map_cons, List.map_nil, List.mem_append,
            List.mem_singleton, not_or]
          by_cases h1 : a ∈ acc.map Prod.fst <;> by_cases h2 : a = k <;>
            simp [h1, h2]
        have hfc : (k :: ks).filter (fun a => decide (a ∉ acc.map Prod.fst))
            = k :: ks.filter (fun a => decide (a ∉ acc.map Prod.fst)) := by
          simp [List.filter_cons, hk]
        rw [hfc]
        have hLcount : (ks.filter (fun a => decide (a ∉ acc.map Prod.fst))).count k
            = ks.count k :=
          count_filter_of_pos _ k (by simp [hk]) ks
        have hfsg : firstSeenGroups
              (k :: ks.filter (fun a => decide (a ∉ acc.map Prod.fst)))
            = (k, 1 + ks.count k)
              :: firstSeenGroups
                  ((ks.filter (fun a => decide (a ∉ acc.map Prod.fst))).filter
                    (fun a => decide (a ≠ k))) := by
          rw [firstSeenGroups, hLcount, filter_firstSeenGroups]
        rw [hfsg]
        have hsplit : ks.filter (fun a => decide (a ∉ (acc ++ [(k, 1)]).map Prod.fst))
            = (ks.filter (fun a => decide (a ∉ acc.map Prod.fst))).filter
                (fun a => decide (a ≠ k)) := by
          rw [List.filter_filter]
          exact List.filter_congr (fun a _ => hpred a)
        rw [hsplit, List.append_assoc, List.singleton_append]

lemma statusCounts_eq_firstSeenGroups (cases : List Case) :
    statusCounts cases = firstSeenGroups (cases.map statusKey) := by
  have hfold : statusCounts cases = (cases.map statusKey).foldl bump [] := by
    rw [statusCounts, List.foldl_map]
  rw [hfold, foldl_bump_eq (cases.map statusKey) [] (by simp)]
  simp

lemma fst_mem_of_mem_firstSeenGroups : ∀ (l : List String) (p : String × Nat),
    p ∈ firstSeenGroups l → p.1 ∈ l := by
  intro l
  induction l with
  | nil => intro p h; simp [firstSeenGroups] at h
  | cons a as ih =>
      intro p h
      rw [firstSeenGroups] at h
      rcases List.mem_cons.mp h with h | h
      · rw [h]; exact List.mem_cons_self a as
      · exact List.mem_cons_of_mem a (ih p (List.mem_of_mem_filter h))

lemma nodup_fst_firstSeenGroups : ∀ l : List String,
    ((firstSeenGroups l).map Prod.fst).Nodup := by
  intro l
  induction l with
  | nil => simp [firstSeenGroups]
  | cons a as ih =>
      rw [firstSeenGroups, List.map_cons, List.nodup_cons]
      constructor
      · intro hmem
        obtain ⟨p, hp, hp1⟩ := List.mem_map.mp hmem
        have := List.of_mem_filter hp
        simp [hp1] at this
      · exact List.Nodup.sublist
          (List.Sublist.map Prod.fst (List.filter_sublist _)) ih

lemma mem_firstSeenGroups_count : ∀ (l : List String) (k : String), k ∈ l →
    (k, l.count k) ∈ firstSeenGroups l := by
  intro l
  induction l with
  | nil => intro k h; simp at h
  | cons a as ih =>
      intro k h
      by_cases hka : k = a
      · subst hka
        have : List.count k (k :: as) = 1 + as.count k := by
          simp [List.count_cons]; omega
        rw [firstSeenGroups, this]
        exact List.mem_cons_self _ _
      · have hk : k ∈ as := by
          rcases List.mem_cons.mp h with h | h
          · exact absurd h hka
          · exact h
        have hcount : List.count k (a :: as) = as.count k := by
          simp [List.count_cons, hka]
        rw [firstSeenGroups, hcount]
        apply List.mem_cons_of_mem
        apply List.mem_filter.mpr
        exact ⟨ih k hk, by simp [hka]⟩

lemma value_unique_of_nodup_fst {α β : Type} : ∀ (l : List (α × β)),
    (l.map Prod.fst).Nodup →
    ∀ (k : α) (v w : β), (k, v) ∈ l → (k, w) ∈ l → v = w := by
  intro l
  induction l with
  | nil => intro _ k v w hv _; simp at hv
  | cons p rest ih =>
      intro hnd k v w hv hw
      rw [List.map_cons, List.nodup_cons] at hnd
      rcases List.mem_cons.mp hv with hv | hv <;> rcases List.mem_cons.mp hw with hw | hw
      · exact congrArg Prod.snd (hv.trans hw.symm)
      · exfalso
        apply hnd.1
        have hk1 : p.1 = k := by rw [← hv]
        rw [hk1]
        exact List.mem_map_of_mem Prod.fst hw
      · exfalso
        apply hnd.1
        have hk1 : p.1 = k := by rw [← hw]
        rw [hk1]
        exact List.mem_map_of_mem Prod.fst hv
      · exact ih hnd.2 k v w hv hw

lemma insertByKeyNum_perm {α : Type} (x : String × α) :
    ∀ l : List (String × α), (insertByKeyNum x l).Perm (x :: l) := by
  intro l
  induction l with
  | nil => exact List.Perm.refl _
  | cons y ys ih =>
      rw [insertByKeyNum]
      by_cases h : keyNum x.1 ≤ keyNum y.1
      · rw [if_pos h]
      · rw [if_neg h]
        exact (ih.cons y).trans (List.Perm.swap x y ys)

lemma sortByKeyNum_perm {α : Type} :
    ∀ l : List (String × α), (sortByKeyNum l).Perm l := by
  intro l
  induction l with
  | nil => exact List.Perm.refl _
  | cons y ys ih =>
      have : sortByKeyNum (y :: ys) = insertByKeyNum y (sortByKeyNum ys) := rfl
      rw [this]
      exact (insertByKeyNum_perm y (sortByKeyNum ys)).trans (ih.cons y)

lemma filter_append_not_filter_perm {α : Type} (p : α → Bool) :
    ∀ l : List α, (l.filter p ++ l.filter (fun a => !p a)).Perm l := by
  intro l
  induction l with
  | nil => exact List.Perm.refl _
  | cons a as ih =>
      cases hpa : p a with
      | true =>
          simp only [List.filter_cons, hpa, Bool.not_true, if_true, Bool.false_eq_true,
            if_false, List.cons_append]
          exact ih.cons a
      | false =>
          simp only [List.filter_cons, hpa, Bool.not_false, if_true, Bool.false_eq_true,
            if_false]
          exact (List.perm_middle).trans (ih.cons a)

lemma jsEntries_perm {α : Type} (l : List (String × α)) :
    (jsEntries l).Perm l := by
  rw [jsEntries]
  exact ((sortByKeyNum_perm _).append_right _).trans
    (filter_append_not_filter_perm (fun p => isArrayIndex p.1) l)

lemma jsEntries_eq_self {α : Type} (l : List (String × α))
    (h : ∀ p ∈ l, isArrayIndex p.1 = false) : jsEntries l = l := by
  have h1 : l.filter (fun p => isArrayIndex p.1) = [] := by
    rw [List.filter_eq_nil_iff]
    intro p hp
    simp [h p hp]
  have h2 : l.filter (fun p => !isArrayIndex p.1) = l := by
    rw [List.filter_eq_self]
    intro p hp
    simp [h p hp]
  rw [jsEntries, h1, h2]
  rfl

/-! ## Helper lemmas about the stable descending sort -/

lemma mem_insertDesc (x : WEntry) :
    ∀ (l : List WEntry) (z : WEntry), z ∈ insertDesc x l ↔ z = x ∨ z ∈ l := by
  intro l
  induction l with
  | nil => intro z; simp [insertDesc]
  | cons y ys ih =>
      intro z
      rw [insertDesc]
      by_cases h : y.value ≤ x.value
      · rw [if_pos h]
        simp [List.mem_cons]
      · rw [if_neg h]
        simp only [List.mem_cons, ih z]
        tauto

lemma pairwise_insertDesc (x : WEntry) :
    ∀ l : List WEntry, l.Pairwise (fun a b => b.value ≤ a.value) →
      (insertDesc x l).Pairwise (fun a b => b.value ≤ a.value) := by
  intro l
  induction l with
  | nil => intro _; simp [insertDesc]
  | cons y ys ih =>
      intro hp
      rw [List.pairwise_cons] at hp
      rw [insertDesc]
      by_cases h : y.value ≤ x.value
      · rw [if_pos h, List.pairwise_cons]
        constructor
        · intro z hz
          rcases List.mem_cons.mp hz with hz | hz
          · rw [hz]; exact h
          · exact (hp.1 z hz).trans h
        · rw [List.pairwise_cons]
          exact hp
      · rw [if_neg h, List.pairwise_cons]
        constructor
        · intro z hz
          rcases (mem_insertDesc x ys z).mp hz with hz | hz
          · rw [hz]; exact le_of_lt (lt_of_not_le h)
          · exact hp.1 z hz
        · exact ih hp.2

lemma sortDesc_pairwise :
    ∀ l : List WEntry, (sortDesc l).Pairwise (fun a b => b.value ≤ a.value) := by
  intro l
  induction l with
  | nil => simp [sortDesc]
  | cons a as ih =>
      have : sortDesc (a :: as) = insertDesc a (sortDesc as) := rfl
      rw [this]
      exact pairwise_insertDesc a (sortDesc as) ih

lemma filter_insertDesc (x : WEntry) (v : ℚ) :
    ∀ l : List WEntry,
      (insertDesc x l).filter (fun e => decide (e.value = v))
        = if x.value = v then x :: l.filter (fun e => decide (e.value = v))
          else l.filter (fun e => decide (e.value = v)) := by
  intro l
  induction l with
  | nil =>
      by_cases hv : x.value = v
      · simp [insertDesc, List.filter_cons, hv]
      · simp [insertDesc, List.filter_cons, hv]
  | cons y ys ih =>
      rw [insertDesc]
      by_cases h : y.value ≤ x.value
      · rw [if_pos h]
        by_cases hv : x.value = v
        · simp [List.filter_cons, hv]
        · simp [List.filter_cons, hv]
      · rw [if_neg h]
        have hxy : x.value < y.value := lt_of_not_le h
        by_cases hv : x.value = v
        · have hyv : ¬ y.value = v := by
            intro hy
            rw [hv] at hxy
            rw [hy] at hxy
            exact lt_irrefl v hxy
          simp [List.filter_cons, hyv, ih, hv]
        · by_cases hyv : y.value = v
          · simp [List.filter_cons, hyv, ih, hv]
          · simp [List.filter_cons, hyv, ih, hv]

lemma sortDesc_stable (v : ℚ) :
    ∀ l : List WEntry,
      (sortDesc l).filter (fun e => decide (e.value = v))
        = l.filter (fun e => decide (e.value = v)) := by
  intro l
  induction l with
  | nil => rfl
  | cons a as ih =>
      have hs : sortDesc (a :: as) = insertDesc a (sortDesc as) := rfl
      rw [hs, filter_insertDesc]
      by_cases hv : a.value = v
      · simp [List.filter_cons, hv, ih]
      · simp [List.filter_cons, hv, ih]

/-! ## Claim theorems -/

/-- C3. For every case collection, `winRate` lies in `[0, 100]`; on the
empty collection (`totalCases = 0`) both `winRate` and `avgCaseValue`
are exactly `0` (the zero-denominator guard takes the `0` branch instead
of dividing, so no NaN or infinity can arise in the rational model), and
on a non-empty collection `winRate` is exactly
`activeCases / totalCases * 100`. -/
theorem winRate_bounds_and_empty (cases : List Case) :
    (0 ≤ winRate cases ∧ winRate cases ≤ 100) ∧
    (totalCases cases = 0 → winRate cases = 0 ∧ avgCaseValue cases = 0) ∧
    (0 < totalCases cases →
      winRate cases = ((activeCases cases : ℚ) / (totalCases cases : ℚ)) * 100) := by
  refine ⟨?_, fun h => ?_, fun h => ?_⟩
  · by_cases h : 0 < totalCases cases
    · have ht : (0 : ℚ) < (totalCases cases : ℚ) := by exact_mod_cast h
      have ha : (activeCases cases : ℚ) ≤ (totalCases cases : ℚ) := by
        exact_mod_cast List.length_filter_le _ cases
      have hdiv1 : (activeCases cases : ℚ) / (totalCases cases : ℚ) ≤ 1 :=
        (div_le_one ht).mpr ha
      constructor
      · simp only [winRate, if_pos h]
        positivity
      · simp only [winRate, if_pos h]
        calc (activeCases cases : ℚ) / (totalCases cases : ℚ) * 100
            ≤ 1 * 100 := by nlinarith
          _ = 100 := one_mul 100
    · simp [winRate, h]
  · have h0 : ¬ 0 < totalCases cases := by omega
    simp [winRate, avgCaseValue, h0]
  · simp [winRate, h]

/-- C4. `totalRevenue` is the sum of the cases' `revenue` fields with an
absent `revenue` contributing `0` (the `|| 0` default, so no
null-propagation failure), and the sum is invariant under any
permutation of the record order. -/
theorem totalRevenue_sum_perm (cases other : List Case) (h : cases.Perm other) :
    totalRevenue cases = (cases.map (fun c => c.revenue.getD 0)).sum ∧
    totalRevenue cases = totalRevenue other := by
  refine ⟨totalRevenue_eq_sum cases, ?_⟩
  rw [totalRevenue_eq_sum, totalRevenue_eq_sum]
  exact (h.map (fun c => c.revenue.getD 0)).sum_eq

/-- Witness for C4 at a concrete two-element permutation: one case has
revenue 100, the other has it absent. -/
theorem totalRevenue_sum_perm_witness :
    totalRevenue
        [⟨none, none, none, some 100, none, none, none, none, none⟩,
         ⟨none, none, none, none, none, none, none, none, none⟩]
      = ([⟨none, none, none, some 100, none, none, none, none, none⟩,
          (⟨none, none, none, none, none, none, none, none, none⟩ : Case)].map
          (fun c => c.revenue.getD 0)).sum ∧
    totalRevenue
        [⟨none, none, none, some 100, none, none, none, none, none⟩,
         ⟨none, none, none, none, none, none, none, none, none⟩]
      = totalRevenue
          [⟨none, none, none, none, none, none, none, none, none⟩,
           ⟨none, none, none, some 100, none, none, none, none, none⟩] :=
  totalRevenue_sum_perm _ _ (by decide)

/-- C5. Negotiation flattening is the order-preserving concatenation of
each case's `negotiations` (per-case order kept, cases in input order;
an absent field contributes nothing), and the negotiation-performance
series is exactly the index-annotated image of the first 20 elements of
the flattened sequence: truncation is a prefix, not sampling. -/
theorem negotiation_flatten_first20 (cases : List Case) :
    flattenNegotiations cases
        = (cases.map (fun c => c.negotiations.getD [])).flatten ∧
    negotiationPerf cases
        = mapWithIndex negPerfPoint 0 ((flattenNegotiations cases).take 20) :=
  ⟨flattenNegotiations_eq_join cases,
    take_mapWithIndex negPerfPoint 20 0 (flattenNegotiations cases)⟩

/-- C8. The executions success rate divides `success` by `total_fetched`
and multiplies by 100, guarded to `0` on a zero denominator; the summary
`{success: 8, error: 2, total_fetched: 10}` yields exactly 80. -/
theorem successRate_guard_and_scenario (d : ExecSummary) :
    successRate ⟨8, 2, 0, 0, 10, none⟩ = 80 ∧
    (d.total_fetched = 0 → successRate d = 0) ∧
    (0 < d.total_fetched → successRate d = (d.success / d.total_fetched) * 100) := by
  refine ⟨?_, fun h => ?_, fun h => ?_⟩
  · norm_num [successRate]
  · simp [successRate, h]
  · simp [successRate, h]

/-- C9. A fetch that settles with HTTP status 400 is surfaced as the
missing-API-key configuration message in both components, which differs
both from the generic non-2xx message and from the network-failure
(rejected fetch) message. -/
theorem http400_not_configured (b : N8nBody) (v : VapiBody) :
    n8nErrorMsg (.response 400 b)
        = some "n8n API Key not configured. Go to Settings to add it." ∧
    vapiErrorMsg (.response 400 v)
        = some "VAPI API Key not configured. Go to Settings to add it." ∧
    n8nErrorMsg (.response 400 b) ≠ some "Failed to fetch n8n data" ∧
    n8nErrorMsg (.response 400 b) ≠ n8nErrorMsg .failure ∧
    vapiErrorMsg (.response 400 v) ≠ some "Failed to fetch VAPI data" ∧
    vapiErrorMsg (.response 400 v) ≠ vapiErrorMsg .failure := by
  refine ⟨?_, ?_, ?_, ?_, ?_, ?_⟩ <;> simp [n8nErrorMsg, vapiErrorMsg, httpOk]

/-- Counterexample to C1 as stated: a cycle in which the cases fetch
fails with a network failure while the n8n fetch succeeds with fresh
data. `Promise.all` rejects, the whole cycle is caught, and the
published state is exactly the previous state (only `loading` cleared):
the succeeding source's fresh data is NOT published, and no field of the
state records the failing source (there is no `sourceErrors`). -/
theorem network_failure_discards_sibling :
    fetchDataStep .failure (.response 200 (some [exExec])) initState
        = { initState with loading := false } ∧
    (fetchDataStep .failure (.response 200 (some [exExec])) initState).n8nExecutions
        ≠ [exExec] := by
  constructor
  · rfl
  · decide

/-- C1 amended: sibling isolation holds for HTTP-level failures only.
If one source answers with a non-2xx status while the other answers 2xx,
the succeeding source's fresh data is published and the failing source's
previously published state is left untouched (not zeroed) — but nothing
records the failure (the component has no `sourceErrors`), and a network
failure on either source discards the whole cycle (see the
counterexample). -/
theorem http_failure_isolated (st : DashState) (s : Nat) (b : List Case)
    (exs : List Execution) (hfail : httpOk s = false) :
    fetchDataStep (.response s b) (.response 200 (some exs)) st
        = { st with n8nExecutions := exs, loading := false } ∧
    fetchDataStep (.response 200 b) (.response s (some exs)) st
        = { st with stats := computeStats b, charts := computeCharts b, loading := false } := by
  have h200 : httpOk 200 = true := rfl
  constructor
  · simp only [fetchDataStep, hfail, h200, if_true, Bool.false_eq_true, if_false,
      processN8n]
  · simp only [fetchDataStep, hfail, h200, if_true, Bool.false_eq_true, if_false,
      processCases]

/-- Witness for the amended C1 at status 500 with concrete data. -/
theorem http_failure_isolated_witness :
    fetchDataStep (.response 500 []) (.response 200 (some [exExec])) initState
        = { initState with n8nExecutions := [exExec], loading := false } ∧
    fetchDataStep (.response 200 []) (.response 500 (some [exExec])) initState
        = { initState with
            stats := computeStats []
            charts := computeCharts []
            loading := false } :=
  http_failure_isolated initState 500 [] [exExec] rfl

/-- Counterexample to C2 as stated: an all-sources-fail cycle publishes a
state identical to the one published by an all-sources-succeed cycle
with empty payloads, so no boolean observable of the component's
contract boundary can be a degraded flag that is true after the former
and false after the latter. -/
theorem no_degraded_flag :
    ¬ ∃ f : DashState → Bool,
        f (fetchDataStep .failure .failure initState) = true ∧
        f (fetchDataStep (.response 200 []) (.response 200 (some [])) initState)
          = false := by
  rintro ⟨f, h1, h2⟩
  have h : fetchDataStep (.response 200 ([] : List Case))
        (.response 200 (some ([] : List Execution))) initState
      = fetchDataStep .failure .failure initState := by decide
  rw [h, h1] at h2
  exact absurd h2 (by simp)

/-- C2 amended: when every configured source fails this cycle (network
failure or non-2xx status), the published state is exactly the previous
(last-known-good) one with only `loading` cleared — no empty
`DashboardState` is published, but no degraded flag is exposed either;
the failure is only logged to the console. -/
theorem all_fail_keeps_state (st : DashState) (o1 : FetchResult (List Case))
    (o2 : FetchResult (Option (List Execution)))
    (h1 : failsCycle o1 = true) (h2 : failsCycle o2 = true) :
    fetchDataStep o1 o2 st = { st with loading := false } := by
  cases o1 with
  | failure => rfl
  | response s1 b1 =>
      cases o2 with
      | failure => rfl
      | response s2 b2 =>
          simp only [failsCycle, Bool.not_eq_true'] at h1 h2
          simp only [fetchDataStep, h1, h2, Bool.false_eq_true, if_false]

/-- Witness for the amended C2: both sources fail (one network failure,
one HTTP 500) and the state is preserved. -/
theorem all_fail_keeps_state_witness :
    fetchDataStep .failure (.response 500 (some [exExec])) initState
      = { initState with loading := false } :=
  all_fail_keeps_state initState .failure (.response 500 (some [exExec])) rfl rfl

/-- Counterexample to C6 as stated: the breakdown object lists workflow
`"B"` before workflow `"2"` (its first-seen/insertion order), both with
count 1, yet the chart series puts `"2"` first: `Object.entries` orders
array-index-like keys numerically before the other keys, overriding
first-seen order before the (stable) sort ever runs. -/
theorem workflowData_tie_order_cex :
    exSummary.workflow_breakdown = some [("B", 1), ("2", 1)] ∧
    (workflowData exSummary).map WEntry.fullName = ["2", "B"] ∧
    (workflowData exSummary).map WEntry.fullName ≠ ["B", "2"] := by
  refine ⟨rfl, by decide, by decide⟩

/-- C6 amended: the workflow-breakdown series is always sorted descending
by count, and — provided no workflow name is an ECMAScript
array-index-like string — entries with equal counts keep the breakdown
object's first-seen (insertion) order: for every count value, the
subsequence of entries with that count equals the corresponding
subsequence of the un-sorted first-seen entries. -/
theorem workflowData_sorted_stable (d : ExecSummary) (wb : List (String × ℚ))
    (hwb : d.workflow_breakdown = some wb)
    (hidx : ∀ p ∈ wb, isArrayIndex p.1 = false) :
    (workflowData d).Pairwise (fun a b => b.value ≤ a.value) ∧
    ∀ v : ℚ, (workflowData d).filter (fun e => decide (e.value = v))
        = (wb.map mkWEntry).filter (fun e => decide (e.value = v)) := by
  constructor
  · rw [workflowData, hwb]
    exact sortDesc_pairwise _
  · intro v
    rw [workflowData, hwb, sortDesc_stable, jsEntries_eq_self wb hidx]

/-- Witness for the amended C6 on a three-workflow breakdown with a tied
count. -/
theorem workflowData_sorted_stable_witness :
    (workflowData exSummaryOk).Pairwise (fun a b => b.value ≤ a.value) ∧
    ∀ v : ℚ, (workflowData exSummaryOk).filter (fun e => decide (e.value = v))
        = ([("wfA", (2 : ℚ)), ("wfB", 5), ("wfC", 2)].map mkWEntry).filter
            (fun e => decide (e.value = v)) :=
  workflowData_sorted_stable exSummaryOk [("wfA", 2), ("wfB", 5), ("wfC", 2)]
    rfl (by decide)

/-- Counterexample to C7 as stated: with statuses seen in the order
`"Active"`, `"2"`, the emitted series is `[("2", 1), ("Active", 1)]` —
the native JS object iteration order (array-index-like keys first,
numerically) — not the first-seen order `[("Active", 1), ("2", 1)]`. -/
theorem statusData_native_order_cex :
    exStatusCases.map statusKey = ["Active", "2"] ∧
    statusData exStatusCases = [("2", 1), ("Active", 1)] ∧
    statusData exStatusCases ≠ firstSeenGroups (exStatusCases.map statusKey) := by
  refine ⟨by decide, by decide, by decide⟩

/-- C7 amended: provided no status key is an ECMAScript array-index-like
string, the status-distribution series is exactly the first-seen
grouping: distinct status keys in order of first occurrence, each paired
with its count; otherwise the array-index-like keys are moved to the
front in numeric order by the JS object's native iteration order. -/
theorem statusData_first_seen (cases : List Case)
    (h : ∀ c ∈ cases, isArrayIndex (statusKey c) = false) :
    statusData cases = firstSeenGroups (cases.map statusKey) := by
  rw [statusData, statusCounts_eq_firstSeenGroups]
  apply jsEntries_eq_self
  intro p hp
  have hmem := fst_mem_of_mem_firstSeenGroups _ p hp
  obtain ⟨c, hc, hck⟩ := List.mem_map.mp hmem
  rw [← hck]
  exact h c hc

/-- Witness for the amended C7 on statuses `"Active"`, `"Closed"`,
`"Active"`. -/
theorem statusData_first_seen_witness :
    statusData exStatusCasesOk = firstSeenGroups (exStatusCasesOk.map statusKey) :=
  statusData_first_seen exStatusCasesOk (by decide)

/-- Counterexample to C10 as stated: with one absent-status case and one
case whose status is the literal string `"undefined"`, the group named
`"undefined"` has value 2, not the number (1) of cases whose status
field is absent: JS string-coercion of the `undefined` key collides with
the literal status. -/
theorem statusData_undefined_collision_cex :
    ("undefined", 2) ∈ statusData exUndefCases ∧
    ("undefined", 1) ∉ statusData exUndefCases ∧
    (exUndefCases.filter (fun c => c.status = none)).length = 1 := by
  refine ⟨by decide, by decide, by decide⟩

/-- C10 amended: whenever some case's status field is absent, aggregation
still succeeds and the series contains exactly one group named by the
literal string `"undefined"` (neither dropped nor defaulted to
`"Unknown"`), whose value counts the cases whose status is absent OR is
the literal string `"undefined"` (both coerce to the same property
key). -/
theorem statusData_undefined_group (cases : List Case)
    (h : ∃ c ∈ cases, c.status = none) :
    ("undefined", (cases.filter (fun c => statusKey c = "undefined")).length)
        ∈ statusData cases ∧
    ∀ v : Nat, ("undefined", v) ∈ statusData cases →
      v = (cases.filter (fun c => statusKey c = "undefined")).length := by
  obtain ⟨c0, hc0, hs0⟩ := h
  have hkey : "undefined" ∈ cases.map statusKey := by
    apply List.mem_map.mpr
    exact ⟨c0, hc0, by simp [statusKey, hs0]⟩
  have hcount : (cases.map statusKey).count "undefined"
      = (cases.filter (fun c => statusKey c = "undefined")).length := by
    rw [List.count_eq_countP, List.countP_map, List.countP_eq_length_filter]
    congr 1
  have hmem0 : ("undefined", (cases.filter (fun c => statusKey c = "undefined")).length)
      ∈ statusCounts cases := by
    rw [statusCounts_eq_firstSeenGroups, ← hcount]
    exact mem_firstSeenGroups_count (cases.map statusKey) "undefined" hkey
  constructor
  · exact (jsEntries_perm (statusCounts cases)).mem_iff.mpr hmem0
  · intro v hv
    have hv0 : ("undefined", v) ∈ statusCounts cases :=
      (jsEntries_perm (statusCounts cases)).mem_iff.mp hv
    have hnd : ((statusCounts cases).map Prod.fst).Nodup := by
      rw [statusCounts_eq_firstSeenGroups]
      exact nodup_fst_firstSeenGroups _
    exact value_unique_of_nodup_fst (statusCounts cases) hnd "undefined" _ _ hv0 hmem0

/-- Witness for the amended C10 on two absent-status cases and one
`"Active"` case. -/
theorem statusData_undefined_group_witness :
    ("undefined", (exUndefCasesOk.filter (fun c => statusKey c = "undefined")).length)
        ∈ statusData exUndefCasesOk ∧
    ∀ v : Nat, ("undefined", v) ∈ statusData exUndefCasesOk →
      v = (exUndefCasesOk.filter (fun c => statusKey c = "undefined")).length :=
  statusData_undefined_group exUndefCasesOk (by decide)

end CasePeer
